import Mathlib

/-!
A verification development for the score-k8s command-line tool (Go).

The relevant parts of the program are shallowly embedded as executable Lean
definitions:

* `src/internal/provisioners/cmdprov/commandprov.go` — the command
  provisioner: descriptor parsing (`Parse`), resource matching (`Match`),
  binary URI resolution (`decodeBinary`) and the subprocess invocation
  protocol (`Provision`).
* `src/main.go` — the `generate` pipeline: workload merging in sorted-path
  order, the empty-project check, priming/provisioning, manifest emission
  guarded by the secret-reference scanner, and the dot-path override
  parser (`parseAndApplyOverrideProperty`).

External collaborators (the Go standard library's `net/url`, `os/exec`,
`os`, the score-go framework, YAML/JSON codecs) are modelled either as
explicit environment records of abstract functions, or as small concrete
models when their behaviour at the interface is pinned down by the design
documentation.  Go machine behaviour that the claims do not depend on
(buffers, logging) is elided; every error return is modelled with
`Except`/`Option`.
-/

namespace ScoreK8s

/-! ## Dynamic document values

Arbitrary decoded YAML/JSON document trees (manifests, workload specs,
override values, provisioner IPC payloads) are represented as a
tagged-variant value type. -/

inductive Val where
  | null
  | bool (b : Bool)
  | int (n : Int)
  | str (s : String)
  | list (xs : List Val)
  | map (kvs : List (String × Val))

/-- First-occurrence lookup in an insertion-ordered string-keyed mapping
(the order-preserving map semantics used by the YAML trees and the
framework's ordered maps). -/
def lookupFirst : List (String × Val) → String → Option Val
  | [], _ => none
  | kv :: rest, k => if kv.1 = k then some kv.2 else lookupFirst rest k

/-- Set a key in an insertion-ordered mapping: replace the first occurrence
in place, or append at the end if the key is new. -/
def setKey : List (String × Val) → String → Val → List (String × Val)
  | [], k, v => [(k, v)]
  | kv :: rest, k, v => if kv.1 = k then (k, v) :: rest else kv :: setKey rest k v

/-- Read the value stored at a dot-path (a non-empty list of keys) in a
nested mapping; `none` when the path is absent or passes through a
non-mapping node. -/
def getPath (m : List (String × Val)) : List String → Option Val
  | [] => none
  | [k] => lookupFirst m k
  | k :: k2 :: rest =>
    match lookupFirst m k with
    | some (.map sub) => getPath sub (k2 :: rest)
    | _ => none

/-! ## Secret-Leak Scanner

Modelled from the spec: `internal.FindFirstUnresolvedSecretRef` lives in
`internal/` of this repository but is not under `src/`; per §4.7 it is a
pure, terminating recursive walk of a decoded document tree (mappings,
sequences, scalars) that reports the structural path of the first scalar
matching the unresolved-secret-reference token pattern.  The token
pattern itself is abstracted as the predicate `isRef`. -/

mutual

def findFirstUnresolvedSecretRef (isRef : String → Bool) (path : String) : Val → Option String
  | .null => none
  | .bool _ => none
  | .int _ => none
  | .str s => if isRef s then some path else none
  | .list xs => findRefInList isRef path 0 xs
  | .map kvs => findRefInMap isRef path kvs

def findRefInList (isRef : String → Bool) (path : String) (i : Nat) : List Val → Option String
  | [] => none
  | x :: xs =>
    match findFirstUnresolvedSecretRef isRef (path ++ "." ++ toString i) x with
    | some p => some p
    | none => findRefInList isRef path (i + 1) xs

def findRefInMap (isRef : String → Bool) (path : String) : List (String × Val) → Option String
  | [] => none
  | kv :: kvs =>
    match findFirstUnresolvedSecretRef isRef (path ++ "." ++ kv.1) kv.2 with
    | some p => some p
    | none => findRefInMap isRef path kvs

end

/-! ## Provisioner descriptors and matching
(`commandprov.go`, type `Provisioner` and method `Match`) -/

/-- The command-provisioner descriptor (`cmdprov.Provisioner`): yaml fields
`uri`, `type`, `class` (optional), `id` (optional), `args`. -/
structure Provisioner where
  provisionerUri : String
  resType : String
  resClass : Option String
  resId : Option String
  args : List String

/-- The matchable key of a resource awaiting provisioning: the
(type, class, id) triple exposed by `framework.ResourceUid` through its
`Type()`, `Class()` and `Id()` accessors. -/
structure ResourceKey where
  rType : String
  rClass : String
  rId : String

/-- Method `(*Provisioner).Match` from `commandprov.go`:

    if resUid.Type() != p.ResType { return false }
    else if p.ResClass != nil && resUid.Class() != *p.ResClass { return false }
    else if p.ResId != nil && resUid.Id() != *p.ResId { return false }
    return true
-/
def Provisioner.Match (p : Provisioner) (r : ResourceKey) : Bool :=
  if r.rType != p.resType then false
  else if (match p.resClass with | some c => r.rClass != c | none => false) then false
  else if (match p.resId with | some i => r.rId != i | none => false) then false
  else true

/-! ## String primitives

Models of the Go `strings` operations the source uses, written as
structural recursion over the character list so that they evaluate on
concrete inputs. -/

/-- Model of `strings.Split(s, sep)` for a one-character separator, on the
character list: `[[]]` for the empty string, and one (possibly empty)
chunk per separator occurrence otherwise. -/
def splitChar (sep : Char) : List Char → List (List Char)
  | [] => [[]]
  | c :: rest =>
    let r := splitChar sep rest
    if c = sep then [] :: r
    else
      match r with
      | [] => [[c]]
      | h :: t => (c :: h) :: t

/-- Model of `strings.Split(s, sep)` for a one-character separator. -/
def stringSplitChar (sep : Char) (s : String) : List String :=
  (splitChar sep s.data).map String.mk

/-- Model of `strings.Split(s, sep)` for a two-character separator, leftmost-first
and non-overlapping. -/
def splitSeq2 (a b : Char) : List Char → List (List Char)
  | [] => [[]]
  | [c] => [[c]]
  | c :: c2 :: rest =>
    if c = a ∧ c2 = b then [] :: splitSeq2 a b rest
    else
      match splitSeq2 a b (c2 :: rest) with
      | [] => [[c]]
      | h :: t => (c :: h) :: t

/-- Model of `strings.Split(s, sep)` for a two-character separator. -/
def stringSplitSeq2 (a b : Char) (s : String) : List String :=
  (splitSeq2 a b s.data).map String.mk

/-- Does the string start with the given character? -/
def charStartsWith (c : Char) (s : String) : Bool :=
  match s.data with
  | [] => false
  | a :: _ => a = c

def isSpaceChar (c : Char) : Bool :=
  c = ' ' ∨ c = '\t' ∨ c = '\n' ∨ c = '\r'

/-- Model of `strings.TrimSpace`. -/
def trimString (s : String) : String :=
  String.mk (((s.data.dropWhile isSpaceChar).reverse.dropWhile isSpaceChar).reverse)

def digitsToNat : List Char → Option Nat
  | [] => none
  | cs =>
    if cs.all (fun c => 48 ≤ c.toNat ∧ c.toNat ≤ 57) then
      some (cs.foldl (fun n c => 10 * n + (c.toNat - 48)) 0)
    else none

/-- Decimal integer syntax (with optional leading minus sign). -/
def strToInt (s : String) : Option Int :=
  match s.data with
  | '-' :: ds => (digitsToNat ds).map (fun n => -(n : Int))
  | ds => (digitsToNat ds).map (fun n => (n : Int))

/-- Go string comparison (`a <= b` on strings, as used by `slices.Sort`):
lexicographic on the character sequence. -/
def charListLe : List Char → List Char → Bool
  | [], _ => true
  | _ :: _, [] => false
  | a :: as, b :: bs =>
    if a.toNat < b.toNat then true
    else if b.toNat < a.toNat then false
    else charListLe as bs

def goStringLe (a b : String) : Bool := charListLe a.data b.data

theorem charListLe_total : ∀ as bs : List Char,
    charListLe as bs = true ∨ charListLe bs as = true := by
  intro as
  induction as with
  | nil => intro bs; left; rfl
  | cons a as ih =>
    intro bs
    cases bs with
    | nil => right; rfl
    | cons b bs =>
      simp only [charListLe]
      by_cases hab : a.toNat < b.toNat
      · left
        rw [if_pos hab]
      · by_cases hba : b.toNat < a.toNat
        · right
          rw [if_pos hba]
        · simp only [if_neg hab, if_neg hba]
          exact ih bs

theorem charListLe_trans : ∀ as bs cs : List Char,
    charListLe as bs = true → charListLe bs cs = true → charListLe as cs = true := by
  intro as
  induction as with
  | nil => intro bs cs h1 h2; rfl
  | cons a as ih =>
    intro bs cs h1 h2
    cases bs with
    | nil => simp [charListLe] at h1
    | cons b bs =>
      cases cs with
      | nil => simp [charListLe] at h2
      | cons c cs =>
        simp only [charListLe] at h1 h2 ⊢
        by_cases hab : a.toNat < b.toNat
        · by_cases hbc : b.toNat < c.toNat
          · rw [if_pos (by omega : a.toNat < c.toNat)]
          · rw [if_neg hbc] at h2
            by_cases hcb : c.toNat < b.toNat
            · rw [if_pos hcb] at h2
              exact Bool.noConfusion h2
            · rw [if_pos (by omega : a.toNat < c.toNat)]
        · rw [if_neg hab] at h1
          by_cases hba : b.toNat < a.toNat
          · rw [if_pos hba] at h1
            exact Bool.noConfusion h1
          · rw [if_neg hba] at h1
            by_cases hbc : b.toNat < c.toNat
            · rw [if_pos (by omega : a.toNat < c.toNat)]
            · rw [if_neg hbc] at h2
              by_cases hcb : c.toNat < b.toNat
              · rw [if_pos hcb] at h2
                exact Bool.noConfusion h2
              · rw [if_neg hcb] at h2
                rw [if_neg (by omega : ¬ a.toNat < c.toNat),
                  if_neg (by omega : ¬ c.toNat < a.toNat)]
                exact ih bs cs h1 h2

theorem charListLe_antisymm : ∀ as bs : List Char,
    charListLe as bs = true → charListLe bs as = true → as = bs := by
  intro as
  induction as with
  | nil =>
    intro bs h1 h2
    cases bs with
    | nil => rfl
    | cons b bs => simp [charListLe] at h2
  | cons a as ih =>
    intro bs h1 h2
    cases bs with
    | nil => simp [charListLe] at h1
    | cons b bs =>
      simp only [charListLe] at h1 h2
      by_cases hab : a.toNat < b.toNat
      · rw [if_neg (by omega : ¬ b.toNat < a.toNat), if_pos hab] at h2
        exact Bool.noConfusion h2
      · by_cases hba : b.toNat < a.toNat
        · rw [if_neg hab, if_pos hba] at h1
          exact Bool.noConfusion h1
        · rw [if_neg hab, if_neg hba] at h1
          rw [if_neg hba, if_neg hab] at h2
          have hc : a = b := by
            have hn : a.toNat = b.toNat := by omega
            exact Char.eq_of_val_eq (UInt32.ext hn)
          rw [hc, ih bs h1 h2]

theorem goStringLe_total (a b : String) : goStringLe a b = true ∨ goStringLe b a = true :=
  charListLe_total a.data b.data

theorem goStringLe_trans (a b c : String) :
    goStringLe a b = true → goStringLe b c = true → goStringLe a c = true :=
  charListLe_trans a.data b.data c.data

theorem goStringLe_antisymm (a b : String) :
    goStringLe a b = true → goStringLe b a = true → a = b := by
  intro h1 h2
  cases a with
  | mk as =>
    cases b with
    | mk bs =>
      exact congrArg String.mk (charListLe_antisymm as bs h1 h2)

/-! ## Filesystem path model (Go `path/filepath`, Unix separators)

`filepath.Join` joins the elements starting from the first non-empty one
with `/` and then lexically cleans the result; `filepath.Clean` processes
the `/`-separated segments, dropping empty and `.` segments and resolving
`..` against preceding segments (never above the root of a rooted path).
`filepathJoin` below computes Clean's segment processing directly on the
concatenation of each element's own `/`-split — lexically identical to
splitting the `/`-joined string, since the elements are joined with the
same separator the Clean pass splits on. -/

/-- The core loop of `filepath.Clean` on `/`-separated segments: skip empty and
`.` segments; on `..` pop the previous segment, keep a leading `..` when
not rooted, and drop `..` at the root of a rooted path.  The accumulator
is kept reversed. -/
def pathCleanSegs (rooted : Bool) (segs : List String) : List String :=
  (segs.foldl
    (fun acc s =>
      if s = "" ∨ s = "." then acc
      else if s = ".." then
        match acc with
        | [] => if rooted then [] else [".."]
        | a :: rest => if a = ".." then s :: acc else rest
      else s :: acc)
    []).reverse

/-- Reassemble a cleaned path from its rootedness and cleaned segments,
as `filepath.Clean` does (an empty relative result is `"."`). -/
def pathFromSegs (rooted : Bool) (segs : List String) : String :=
  let body := String.intercalate "/" segs
  if rooted then "/" ++ body
  else if body = "" then "." else body

/-- Go `filepath.Clean` (Unix). -/
def pathClean (p : String) : String :=
  let rooted := charStartsWith '/' p
  pathFromSegs rooted (pathCleanSegs rooted (stringSplitChar '/' p))

/-- Go `filepath.Join` (Unix): all-empty input yields `""`; otherwise the
elements from the first non-empty one are joined with `/` and cleaned. -/
def filepathJoin (parts : List String) : String :=
  let rest := parts.dropWhile (fun s => s = "")
  if rest.isEmpty then ""
  else
    let rooted := charStartsWith '/' (rest.headD "")
    pathFromSegs rooted (pathCleanSegs rooted (rest.map (stringSplitChar '/')).flatten)

/-- Go `filepath.Dir` (Unix): everything up to and including the final
separator, cleaned; `"."` when there is no separator. -/
def filepathDir (p : String) : String :=
  let segs := stringSplitChar '/' p
  if segs.length ≤ 1 then "."
  else pathClean (String.intercalate "/" segs.dropLast ++ "/")

/-! ## URL parsing and OS environment (external collaborators)

`net/url.Parse`, `exec.LookPath`, `os.UserHomeDir` and `os.Getwd` are Go
standard-library collaborators; they are modelled as an abstract
environment record.  `URLParts` records exactly the accessors the source
reads from a parsed `*url.URL`: `Hostname()`, `EscapedPath()`, `User`,
`Query()` and `Port()`. -/

structure URLParts where
  hostname : String
  escapedPath : String
  userinfo : Option String
  queryParams : List (String × String)
  port : String

structure OsEnv where
  parseURL : String → Option URLParts
  lookPath : String → Except String String
  userHomeDir : Except String String
  getwd : Except String String

/-- Function `decodeBinary` from `commandprov.go`.  The source discards the error
of `url.Parse` (`parts, _ := url.Parse(uri)`) and dereferences `parts`
unconditionally; a failed parse therefore leaves `parts == nil` and the
subsequent `parts.EscapedPath()` call is a nil-pointer dereference.  That
panic is modelled as the `none` result; every other outcome is `some` of
the returned path or error.

    parts, _ := url.Parse(uri)
    pathParts := strings.Split(parts.EscapedPath(), "/")
    switch parts.Hostname() {
    case "":   return string(filepath.Separator) + filepath.Join(pathParts...), nil
    case "~":  hd, err := os.UserHomeDir(); ...; pathParts = insert(pathParts, 0, hd)
    case ".":  pwd, err := os.Getwd(); ...;     pathParts = insert(pathParts, 0, pwd)
    case "..": pwd, err := os.Getwd(); ...;     pathParts = insert(pathParts, 0, filepath.Dir(pwd))
    default:
      if len(pathParts) > 1 { return "", error }
      b, err := exec.LookPath(parts.Hostname()); ...
      pathParts = insert(pathParts, 0, b)
    }
    return filepath.Join(pathParts...), nil
-/
def decodeBinary (env : OsEnv) (uri : String) : Option (Except String String) :=
  match env.parseURL uri with
  | none => none
  | some parts =>
    if parts.hostname = "" then
      some (.ok ("/" ++ filepathJoin (stringSplitChar '/' parts.escapedPath)))
    else if parts.hostname = "~" then
      match env.userHomeDir with
      | .error e => some (.error ("failed to resolve user home directory: " ++ e))
      | .ok hd => some (.ok (filepathJoin (hd :: stringSplitChar '/' parts.escapedPath)))
    else if parts.hostname = "." then
      match env.getwd with
      | .error e => some (.error ("failed to resolve current working directory: " ++ e))
      | .ok pwd => some (.ok (filepathJoin (pwd :: stringSplitChar '/' parts.escapedPath)))
    else if parts.hostname = ".." then
      match env.getwd with
      | .error e => some (.error ("failed to resolve current working directory: " ++ e))
      | .ok pwd => some (.ok (filepathJoin (filepathDir pwd :: stringSplitChar '/' parts.escapedPath)))
    else if (stringSplitChar '/' parts.escapedPath).length > 1 then
      some (.error "direct command reference cannot contain additional path parts")
    else
      match env.lookPath parts.hostname with
      | .error e => some (.error ("failed to find " ++ parts.hostname ++ " on path: " ++ e))
      | .ok b => some (.ok (filepathJoin (b :: stringSplitChar '/' parts.escapedPath)))

/-! ## Descriptor parsing (`Parse` in `commandprov.go`)

`Parse` re-marshals the raw mapping and decodes it with
`yaml.Decoder.KnownFields(true)` into the `Provisioner` struct: a strict
decode that rejects any key outside the struct's yaml field set and any
value of the wrong shape for its field.  The source document is modelled
as an ordered list of key/value pairs whose values are classified by the
shapes the struct can accept. -/

inductive DVal where
  | str (s : String)
  | strs (xs : List String)
  | other

/-- The yaml field names of `cmdprov.Provisioner`. -/
def provisionerFieldNames : List String := ["uri", "type", "class", "id", "args"]

/-- The zero value the strict yaml decode starts from (Go zero values:
empty strings, nil pointers, nil slice). -/
def emptyProvisioner : Provisioner :=
  { provisionerUri := "", resType := "", resClass := none, resId := none, args := [] }

/-- The strict (`KnownFields(true)`) yaml decode of a descriptor document
into `Provisioner`: unknown keys and wrongly-shaped values are hard
errors; later duplicate keys overwrite earlier ones. -/
def decodeProvisionerDoc : List (String × DVal) → Provisioner → Except String Provisioner
  | [], p => .ok p
  | (k, v) :: rest, p =>
    if k = "uri" then
      match v with
      | .str s => decodeProvisionerDoc rest { p with provisionerUri := s }
      | _ => .error "cannot unmarshal field uri"
    else if k = "type" then
      match v with
      | .str s => decodeProvisionerDoc rest { p with resType := s }
      | _ => .error "cannot unmarshal field type"
    else if k = "class" then
      match v with
      | .str s => decodeProvisionerDoc rest { p with resClass := some s }
      | _ => .error "cannot unmarshal field class"
    else if k = "id" then
      match v with
      | .str s => decodeProvisionerDoc rest { p with resId := some s }
      | _ => .error "cannot unmarshal field id"
    else if k = "args" then
      match v with
      | .strs xs => decodeProvisionerDoc rest { p with args := xs }
      | _ => .error "cannot unmarshal field args"
    else .error ("field " ++ k ++ " not found in type cmdprov.Provisioner")

/-- Function `Parse` from `commandprov.go`: strict decode, then the required-field
checks (`uri not set`, `type not set`), then the URI validation — the uri
must parse and must carry no user-info, no query parameters and no
explicit port. -/
def Parse (env : OsEnv) (doc : List (String × DVal)) : Except String Provisioner :=
  match decodeProvisionerDoc doc emptyProvisioner with
  | .error e => .error e
  | .ok p =>
    if p.provisionerUri = "" then .error "uri not set"
    else if p.resType = "" then .error "type not set"
    else
      match env.parseURL p.provisionerUri with
      | none => .error "failed to parse url"
      | some parts =>
        if parts.userinfo.isSome then .error "cmd provisioner uri cannot contain user info"
        else if parts.queryParams.length ≠ 0 then .error "cmd provisioner uri cannot contain query params"
        else if parts.port ≠ "" then .error "cmd provisioner uri cannot contain a port"
        else .ok p

/-! ## Argument templating and the Provision subprocess protocol -/

/-- Modelled from the spec: `provisioners.RenderTemplate` lives in
`internal/provisioners` of this repository but is not under `src/`; per
§2/§4.3 the Template Renderer "expands `{\x7b }\x7d`-style placeholders
against a data context", and template failures are errors.  Each
placeholder body is looked up in the data context `lk`; text outside
placeholder delimiters — in particular a string containing no delimiters
at all — passes through unchanged. -/
def renderTemplate (lk : String → Option String) (s : String) : Except String String :=
  match stringSplitSeq2 '\x7b' '\x7b' s with
  | [] => .ok s
  | [_] => .ok s
  | first :: rest =>
    (rest.mapM (fun (seg : String) =>
        match stringSplitSeq2 '\x7d' '\x7d' seg with
        | key :: suffixParts =>
          match lk (trimString key) with
          | some v => Except.ok (v ++ String.intercalate "\x7d\x7d" suffixParts)
          | none => Except.error ("template: cannot render " ++ trimString key)
        | [] => Except.error "template: unterminated placeholder")).map
      (fun pieces => first ++ String.join pieces)

/-- The argument-rendering loop of `(*Provisioner).Provision`
(`commandprov.go`):

    // if there is a <mode> arg, we mark it as "provision".
    args := slices.Clone(p.Args)
    for i, arg := range args {
        if arg == "<mode>" {
            args[i] = "provision"
        }
        rendered, err := provisioners.RenderTemplate(arg, data)
        if err != nil { return nil, err }
        args[i] = rendered
    }

The loop variable `arg` is the element read at the top of the iteration,
so the write `args[i] = "provision"` (`marked` below) is dead: the
unconditional `args[i] = rendered` that follows overwrites the slot with
`RenderTemplate(arg, data)`, where `arg` is still the original `"<mode>"`
token. -/
def provisionArgs (render : String → Except String String) : List String → Except String (List String)
  | [] => .ok []
  | arg :: rest =>
    let marked := if arg = "<mode>" then "provision" else arg
    match render arg with
    | .error e => .error e
    | .ok rendered =>
      let _ := marked
      match provisionArgs render rest with
      | .error e => .error e
      | .ok tail => .ok (rendered :: tail)

/-- The distinct error classes a `Provision` call can return, one per
`return nil, err` site in `commandprov.go`. -/
inductive ProvisionError where
  | resolveFailed (e : String)
  | templateFailed (e : String)
  | subprocessFailed (e : String)
  | decodeFailed (e : String)

/-- Modelled from the spec: the `provisioners.ProvisionOutput` struct
itself lives in `internal/provisioners` of this repository but is not
under `src/`; per §3/§4.5/§6 the Provision Output is a strict mapping
with a fixed whitelisted field set covering the resource's emitted state,
values and secrets, the shared-state deltas, and any directly-emitted
manifests. -/
def provisionOutputFields : List String := ["state", "values", "secrets", "shared", "manifests"]

structure ProvisionOutputM where
  resourceState : Option Val
  resourceValues : Option Val
  resourceSecrets : Option Val
  sharedState : Option Val
  manifests : Option Val

/-- The strict JSON decode of the subprocess's standard output
(`json.Decoder` with `DisallowUnknownFields()`, `commandprov.go` lines
145-150): any key outside the whitelisted field set is a hard decode
error. -/
def findUnknownField : List (String × Val) → Option String
  | [] => none
  | kv :: rest => if kv.1 ∈ provisionOutputFields then findUnknownField rest else some kv.1

def decodeProvisionOutput (v : Val) : Except String ProvisionOutputM :=
  match v with
  | .map kvs =>
    match findUnknownField kvs with
    | some k => .error ("json: unknown field " ++ k)
    | none =>
      .ok { resourceState := lookupFirst kvs "state"
            resourceValues := lookupFirst kvs "values"
            resourceSecrets := lookupFirst kvs "secrets"
            sharedState := lookupFirst kvs "shared"
            manifests := lookupFirst kvs "manifests" }
  | _ => .error "json: not an object"

/-- The tail of `(*Provisioner).Provision`: `cmd.Run()` failure is the
subprocess-execution error; only on success is the buffered standard
output decoded, and a decode failure is the distinct decode error.  The
subprocess result is modelled as `Except`, with `.ok` carrying the parsed
standard output document. -/
def provisionIPC (runResult : Except String Val) : Except ProvisionError ProvisionOutputM :=
  match runResult with
  | .error e => .error (.subprocessFailed ("failed to execute cmd provisioner: " ++ e))
  | .ok out =>
    match decodeProvisionOutput out with
    | .error e => .error (.decodeFailed ("failed to decode output from cmd provisioner: " ++ e))
    | .ok o => .ok o

/-- Environment of a `Provision` call: the OS collaborators used by
`decodeBinary`, the template data context (collapsed to a placeholder
lookup), and the subprocess spawner (`exec.CommandContext` + `Run`),
which returns the parsed standard-output document or the execution
error. -/
structure ProvEnv where
  os : OsEnv
  dataLookup : String → Option String
  run : String → List String → Val → Except String Val

/-- Method `(*Provisioner).Provision` end to end: resolve the binary, render the
arguments, spawn the subprocess on the JSON-encoded input, strictly
decode its standard output.  The `Option` layer is `decodeBinary`'s
nil-URL panic; the `Bool` records whether a subprocess was spawned. -/
def ProvisionRun (env : ProvEnv) (p : Provisioner) (input : Val) :
    Option (Except ProvisionError ProvisionOutputM × Bool) :=
  match decodeBinary env.os p.provisionerUri with
  | none => none
  | some (.error e) => some (.error (.resolveFailed e), false)
  | some (.ok bin) =>
    match provisionArgs (renderTemplate env.dataLookup) p.args with
    | .error e => some (.error (.templateFailed e), false)
    | .ok args => some (provisionIPC (env.run bin args input), true)

/-! ## Dot-path property overrides (`parseAndApplyOverrideProperty`, `main.go`) -/

/-- Model of `strings.SplitN(s, "=", 2)` on the character list: split at the first
`=`, if any. -/
def splitFirstEq : List Char → List Char × Option (List Char)
  | [] => ([], none)
  | c :: rest =>
    if c = '=' then ([], some rest)
    else
      let pr := splitFirstEq rest
      (c :: pr.1, pr.2)

/-- Model of `strings.SplitN(entry, "=", 2)`: one element when `entry` contains no
`=`, otherwise the part before the first `=` and everything after it. -/
def splitN2 (s : String) : List String :=
  match splitFirstEq s.toList with
  | (a, none) => [String.mk a]
  | (a, some b) => [String.mk a, String.mk b]

/-- Model of `framework.ParseDotPathParts` (score-go, external collaborator): a
dot-path is split on `.` into its parts. -/
def parseDotPathParts (s : String) : List String := stringSplitChar '.' s

/-- Model of `framework.OverridePathInMap` (score-go, external collaborator,
modelled at its interface per §3/§4.6): with `del = true` the dot-path is
removed from the nested mapping; with `del = false` the path is set to
`v`, creating intermediate mappings as needed; setting through an
existing non-mapping node is an error. -/
def overridePathInMap (m : List (String × Val)) : List String → Bool → Val →
    Except String (List (String × Val))
  | [], _, _ => .error "cannot override an empty path"
  | [k], del, v =>
    if del then .ok (m.filter (fun kv => kv.1 != k))
    else .ok (setKey m k v)
  | k :: k2 :: rest, del, v =>
    match lookupFirst m k with
    | some (.map sub) =>
      (overridePathInMap sub (k2 :: rest) del v).map (fun sub2 => setKey m k (.map sub2))
    | some _ => if del then .ok m else .error ("cannot set through non-map value at " ++ k)
    | none =>
      if del then .ok m
      else (overridePathInMap [] (k2 :: rest) del v).map (fun sub2 => setKey m k (.map sub2))

/-- Modelled YAML/JSON scalar decoding of an override value
(`yaml.Unmarshal` on the value part, external collaborator): integers,
booleans and null decode to their typed values, anything else to a
string. -/
def yamlUnmarshalValue (s : String) : Except String Val :=
  if s = "null" ∨ s = "~" then .ok .null
  else if s = "true" then .ok (.bool true)
  else if s = "false" then .ok (.bool false)
  else
    match strToInt s with
    | some n => .ok (.int n)
    | none => .ok (.str s)

/-- Function `parseAndApplyOverrideProperty` from `main.go`:

    parts := strings.SplitN(entry, "=", 2)
    if len(parts) != 2 { return nil, error }
    if parts[1] == "" {
        after, err := framework.OverridePathInMap(spec, framework.ParseDotPathParts(parts[0]), true, nil)
        ...
    } else {
        var value interface{}
        if err := yaml.Unmarshal([]byte(parts[1]), &value); err != nil { return nil, error }
        after, err := framework.OverridePathInMap(spec, framework.ParseDotPathParts(parts[0]), false, value)
        ...
    }
-/
def parseAndApplyOverrideProperty (entry : String) (spec : List (String × Val)) :
    Except String (List (String × Val)) :=
  match splitN2 entry with
  | [p, v] =>
    if v = "" then
      match overridePathInMap spec (parseDotPathParts p) true .null with
      | .error e => .error ("--override-property could not be applied: " ++ e)
      | .ok after => .ok after
    else
      match yamlUnmarshalValue v with
      | .error e => .error ("--override-property is invalid, failed to unmarshal value: " ++ e)
      | .ok value =>
        match overridePathInMap spec (parseDotPathParts p) false value with
        | .error e => .error ("--override-property could not be applied: " ++ e)
        | .ok after => .ok after
  | _ => .error "--override-property is invalid, expected a =-separated path and value"

/-! ## The generate pipeline (`generateCmd.RunE`, `main.go`)

The stages the claims are about: the input score files are sorted
(`slices.Sort(args)`) and folded into project state in that order; the
empty-project check; resource priming; provisioning; state persistence;
and manifest emission guarded by the secret scanner, with the assembled
stream written out only at the very end.

The per-file ingestion (read, decode, overrides, upgrade transforms,
schema validation, image substitution) is collapsed into the abstract
`loadWorkload`, and priming, provisioning and per-workload conversion are
the abstract operations the spec treats as black boxes.  Observable
side-effect attempts are recorded as events. -/

structure GenState where
  workloads : List (String × Val)
  extrasManifests : List Val

structure GenEnv where
  loadWorkload : String → Except String (String × Val)
  prime : GenState → Except String GenState
  provisionAll : GenState → Except String GenState
  convert : GenState → String → Except String (List Val)
  isSecretRef : String → Bool

inductive GEvent where
  | primed
  | provisioned
  | persisted
  | wroteOutput (ms : List Val)

/-- Model of `state.WithWorkload` (score-go framework, external collaborator): set
the workload under its name in the insertion-ordered workloads map. -/
def GenState.withWorkload (s : GenState) (name : String) (doc : Val) : GenState :=
  { s with workloads := setKey s.workloads name doc }

/-- The `for _, arg := range args` ingestion loop of `generateCmd.RunE`
(after `slices.Sort(args)`): each file is loaded and folded into state;
any per-file failure aborts. -/
def mergeWorkloads (env : GenEnv) (s : GenState) : List String → Except String GenState
  | [] => .ok s
  | arg :: rest =>
    match env.loadWorkload arg with
    | .error e => .error ("failed to add score file to project: " ++ arg ++ ": " ++ e)
    | .ok (name, doc) => mergeWorkloads env (s.withWorkload name doc) rest

/-- One emission loop body iterated over a manifest list: each manifest is
passed through the secret scanner before being appended to the stream;
the first unresolved reference aborts with the error from `main.go`. -/
def scanAll (isRef : String → Bool) : List Val → Except String (List Val)
  | [] => .ok []
  | m :: rest =>
    match findFirstUnresolvedSecretRef isRef "" m with
    | some p => .error ("unresolved secret ref in manifest: " ++ p)
    | none =>
      match scanAll isRef rest with
      | .error e => .error e
      | .ok tail => .ok (m :: tail)

/-- The per-workload emission loop (`main.go` lines 270-291): convert the
workload, then scan and append each produced manifest.  The yaml
serialize/re-decode round-trip the source applies before scanning is
modelled as the identity on the manifest value. -/
def emitWorkloads (env : GenEnv) (s : GenState) : List (String × Val) → Except String (List Val)
  | [] => .ok []
  | w :: rest =>
    match env.convert s w.1 with
    | .error e => .error ("workload: " ++ w.1 ++ ": failed to convert: " ++ e)
    | .ok ms =>
      match scanAll env.isSecretRef ms with
      | .error e => .error e
      | .ok ms2 =>
        match emitWorkloads env s rest with
        | .error e => .error e
        | .ok tail => .ok (ms2 ++ tail)

/-- The full manifest-assembly stage (`main.go` lines 252-291): the
resource manifests from state extras first, then the converted manifests
of every workload, each scanned before being appended. -/
def emitManifests (env : GenEnv) (s : GenState) : Except String (List Val) :=
  match scanAll env.isSecretRef s.extrasManifests with
  | .error e => .error e
  | .ok ms1 =>
    match emitWorkloads env s s.workloads with
    | .error e => .error e
    | .ok ms2 => .ok (ms1 ++ ms2)

/-- All manifests the emission stage would pass through the scanner: the
state extras plus every manifest produced by a successful workload
conversion. -/
def convertedManifests (env : GenEnv) (s : GenState) : List (String × Val) → List Val
  | [] => []
  | w :: rest =>
    (match env.convert s w.1 with | .ok ms => ms | .error _ => []) ++ convertedManifests env s rest

def emitCandidates (env : GenEnv) (s : GenState) : List Val :=
  s.extrasManifests ++ convertedManifests env s s.workloads

/-- The body of `generateCmd.RunE` from the sort of the input files onward: sorted
ingestion, the empty-project abort, priming, provisioning, persistence,
emission, final write.  The event list records which effectful stages
were reached; the write of the assembled stream (to the output file or
standard output) happens only after every manifest has been scanned. -/
def generatePipeline (env : GenEnv) (init : GenState) (args : List String) :
    Except String (List Val) × List GEvent :=
  match mergeWorkloads env init (List.insertionSort (fun a b => goStringLe a b = true) args) with
  | .error e => (.error e, [])
  | .ok s1 =>
    if s1.workloads.isEmpty then (.error "Project is empty, please add a score file", [])
    else
      match env.prime s1 with
      | .error e => (.error ("failed to prime resources: " ++ e), [.primed])
      | .ok s2 =>
        match env.provisionAll s2 with
        | .error e => (.error ("failed to provision resources: " ++ e), [.primed, .provisioned])
        | .ok s3 =>
          match emitManifests env s3 with
          | .error e => (.error e, [.primed, .provisioned, .persisted])
          | .ok ms => (.ok ms, [.primed, .provisioned, .persisted, .wroteOutput ms])

/-! # Claims -/

/-! ## C5 — descriptor matching -/

/-- C5: For every descriptor and every resource key, `Match` returns true
if and only if the resource's type equals the descriptor's type exactly,
and, whenever the descriptor specifies a class (respectively an id), the
resource's class (respectively id) equals it exactly; a descriptor with
absent class or id never mismatches on that component. -/
theorem Match_iff_type_and_specified_class_and_id (p : Provisioner) (r : ResourceKey) :
    p.Match r = true ↔
      (r.rType = p.resType ∧ (∀ c, p.resClass = some c → r.rClass = c) ∧
        (∀ i, p.resId = some i → r.rId = i)) := by
  rcases p with ⟨u, t, oc, oi, a⟩
  cases oc <;> cases oi <;> simp [Provisioner.Match]

/-! ## C2 — the reserved mode token -/

/-- C2: in the argument loop of `Provision`, the marking of a whole
`"<mode>"` argument as `"provision"` is immediately overwritten by the
unconditional `args[i] = rendered` that follows, where the rendered value
is `RenderTemplate` applied to the original loop value `"<mode>"`.  Since
`"<mode>"` contains no placeholder delimiters, the renderer returns it
unchanged, and the argument the subprocess receives is the literal
`"<mode>"` — not the mode keyword `"provision"` the source's own comment
promises. -/
theorem provisionArgs_mode_token_is_rendered_not_marked :
    provisionArgs (renderTemplate (fun _ => none)) ["<mode>"] = .ok ["<mode>"] ∧
      ("<mode>" : String) ≠ "provision" :=
  ⟨rfl, by decide⟩


/-! ## C6 / C10 — binary URI resolution -/

/-- Joining as `filepath.Join(b, "")` for non-empty `b` is `filepath.Clean(b)`: the
trailing empty element contributes one empty segment, which the clean
pass drops. -/
theorem filepathJoin_pair_empty (b : String) (hb : b ≠ "") :
    filepathJoin [b, ""] = pathClean b := by
  have hdrop : List.dropWhile (fun s => decide (s = "")) [b, ""] = [b, ""] := by
    simp [List.dropWhile, hb]
  have hsegs : ∀ (rooted : Bool) (xs : List String),
      pathCleanSegs rooted (xs ++ [""]) = pathCleanSegs rooted xs := by
    intro rooted xs
    unfold pathCleanSegs
    rw [List.foldl_append]
    rfl
  simp only [filepathJoin, pathClean, hdrop]
  simp only [List.isEmpty_cons, List.headD_cons, List.map_cons, List.map_nil, List.flatten]
  have : stringSplitChar '/' "" = [""] := rfl
  rw [this]
  simp [hsegs]

/-- C6: for a provisioner URI whose host is none of `""`, `"~"`, `"."`,
`".."` (a direct command reference): with no additional path segments,
binary resolution returns exactly what looking the host up on the
executable search path returns (the path on success — `exec.LookPath`
results are already clean — and a resolution error on failure); with any
additional path segments present it always returns an error, and a
`Provision` call on such a descriptor never spawns a subprocess. -/
theorem decodeBinary_direct_command (env : OsEnv) (uri : String) (parts : URLParts)
    (hparse : env.parseURL uri = some parts)
    (hhost : parts.hostname ∉ (["", "~", ".", ".."] : List String)) :
    (∀ b, parts.escapedPath = "" → env.lookPath parts.hostname = .ok b → pathClean b = b →
        decodeBinary env uri = some (.ok b)) ∧
    (∀ e, parts.escapedPath = "" → env.lookPath parts.hostname = .error e →
        decodeBinary env uri =
          some (.error ("failed to find " ++ parts.hostname ++ " on path: " ++ e))) ∧
    (1 < (stringSplitChar '/' parts.escapedPath).length →
        decodeBinary env uri =
          some (.error "direct command reference cannot contain additional path parts")) ∧
    (∀ (penv : ProvEnv) (p : Provisioner) (input : Val),
        penv.os = env → p.provisionerUri = uri →
        1 < (stringSplitChar '/' parts.escapedPath).length →
        ProvisionRun penv p input =
          some (.error
            (.resolveFailed "direct command reference cannot contain additional path parts"),
            false)) := by
  simp only [List.mem_cons, not_or] at hhost
  obtain ⟨h1, h2, h3, h4, -⟩ := hhost
  refine ⟨?_, ?_, ?_, ?_⟩
  · intro b hpath hlook hclean
    have hb : b ≠ "" := by
      intro hbe
      rw [hbe] at hclean
      exact absurd hclean (by decide)
    unfold decodeBinary
    rw [hparse]
    simp only [hpath, if_neg h1, if_neg h2, if_neg h3, if_neg h4]
    have hone : ¬ (1 < (stringSplitChar '/' "").length) := by decide
    rw [if_neg hone, hlook]
    show some (Except.ok (filepathJoin (b :: stringSplitChar '/' ""))) = some (Except.ok b)
    rw [show stringSplitChar '/' "" = [""] from rfl, filepathJoin_pair_empty b hb, hclean]
  · intro e hpath hlook
    unfold decodeBinary
    rw [hparse]
    simp only [hpath, if_neg h1, if_neg h2, if_neg h3, if_neg h4]
    have hone : ¬ (1 < (stringSplitChar '/' "").length) := by decide
    rw [if_neg hone, hlook]
  · intro hlen
    unfold decodeBinary
    rw [hparse]
    simp only [if_neg h1, if_neg h2, if_neg h3, if_neg h4]
    rw [if_pos hlen]
  · intro penv p input hos hpu hlen
    unfold ProvisionRun
    rw [hos, hpu]
    have hres : decodeBinary env uri =
        some (.error "direct command reference cannot contain additional path parts") := by
      unfold decodeBinary
      rw [hparse]
      simp only [if_neg h1, if_neg h2, if_neg h3, if_neg h4]
      rw [if_pos hlen]
    rw [hres]

/-- Witness for C6, at a concrete environment: `cmd://foo` resolves to
exactly what the search-path lookup returns, and `cmd://foo/x` (an extra
path segment) is rejected. -/
theorem decodeBinary_direct_command_witness :
    (decodeBinary
        { parseURL := fun u =>
            if u = "cmd://foo" then some ⟨"foo", "", none, [], ""⟩
            else if u = "cmd://foo/x" then some ⟨"foo", "/x", none, [], ""⟩
            else none,
          lookPath := fun n => if n = "foo" then .ok "/usr/bin/foo" else .error "not found",
          userHomeDir := .ok "/home/u", getwd := .ok "/work" }
        "cmd://foo" = some (.ok "/usr/bin/foo")) ∧
    (decodeBinary
        { parseURL := fun u =>
            if u = "cmd://foo" then some ⟨"foo", "", none, [], ""⟩
            else if u = "cmd://foo/x" then some ⟨"foo", "/x", none, [], ""⟩
            else none,
          lookPath := fun n => if n = "foo" then .ok "/usr/bin/foo" else .error "not found",
          userHomeDir := .ok "/home/u", getwd := .ok "/work" }
        "cmd://foo/x" =
      some (.error "direct command reference cannot contain additional path parts")) := by
  constructor
  · exact (decodeBinary_direct_command _ "cmd://foo" ⟨"foo", "", none, [], ""⟩ rfl
      (by decide)).1 "/usr/bin/foo" rfl rfl rfl
  · exact (decodeBinary_direct_command _ "cmd://foo/x" ⟨"foo", "/x", none, [], ""⟩ rfl
      (by decide)).2.2.1 (by decide)

/-- Inversion of a successful `Parse`: the strict decode succeeded, the
required fields are set, and the URI parsed with no user-info, no query
parameters and no port. -/
theorem Parse_ok_inversion (env : OsEnv) (doc : List (String × DVal)) (p : Provisioner)
    (h : Parse env doc = .ok p) :
    decodeProvisionerDoc doc emptyProvisioner = .ok p ∧
      p.provisionerUri ≠ "" ∧ p.resType ≠ "" ∧
      ∃ parts, env.parseURL p.provisionerUri = some parts ∧
        parts.userinfo = none ∧ parts.queryParams = [] ∧ parts.port = "" := by
  unfold Parse at h
  repeat' split at h
  any_goals cases h
  refine ⟨by assumption, by assumption, by assumption, ?_⟩
  rename_i parts hui hq hpo hdec hu ht hparts
  exact ⟨parts, hparts, Option.not_isSome_iff_eq_none.mp hui,
    List.length_eq_zero.mp (not_ne_iff.mp hq), not_ne_iff.mp hpo⟩

/-- C10: `decodeBinary` discards the `url.Parse` error, but on every
descriptor accepted by `Parse` the same URI parses successfully, so the
parsed URL is non-nil (`decodeBinary` never hits its nil-dereference
outcome) and resolution is total: it returns a path or an error. -/
theorem decodeBinary_total_on_parse_accepted (env : OsEnv) (doc : List (String × DVal))
    (p : Provisioner) (h : Parse env doc = .ok p) :
    ∃ r, decodeBinary env p.provisionerUri = some r := by
  obtain ⟨-, -, -, parts, hp, -, -, -⟩ := Parse_ok_inversion env doc p h
  unfold decodeBinary
  rw [hp]
  repeat' split
  all_goals first
    | exact ⟨_, rfl⟩
    | simp_all

/-- Witness for C10: a concretely parsed descriptor, on which resolution
returns a value. -/
theorem decodeBinary_total_on_parse_accepted_witness :
    ∃ r, decodeBinary
        { parseURL := fun u =>
            if u = "cmd://foo" then some ⟨"foo", "", none, [], ""⟩ else none,
          lookPath := fun n => if n = "foo" then .ok "/usr/bin/foo" else .error "not found",
          userHomeDir := .ok "/home/u", getwd := .ok "/work" }
        "cmd://foo" = some r :=
  decodeBinary_total_on_parse_accepted
    { parseURL := fun u =>
        if u = "cmd://foo" then some ⟨"foo", "", none, [], ""⟩ else none,
      lookPath := fun n => if n = "foo" then .ok "/usr/bin/foo" else .error "not found",
      userHomeDir := .ok "/home/u", getwd := .ok "/work" }
    [("uri", .str "cmd://foo"), ("type", .str "t")]
    { provisionerUri := "cmd://foo", resType := "t", resClass := none, resId := none, args := [] }
    rfl

/-! ## C7 — strict descriptor parsing -/

/-- A document containing any key outside the struct's field set fails
the strict decode. -/
theorem decodeProvisionerDoc_unknown_key :
    ∀ (doc : List (String × DVal)) (p0 : Provisioner) (kv : String × DVal),
      kv ∈ doc → kv.1 ∉ provisionerFieldNames →
      ∃ e, decodeProvisionerDoc doc p0 = .error e := by
  intro doc
  induction doc with
  | nil =>
    intro p0 kv hmem hnot
    simp at hmem
  | cons hd rest ih =>
    intro p0 kv hmem hnot
    rcases List.mem_cons.mp hmem with heq | hmem2
    · subst heq
      obtain ⟨k, v⟩ := kv
      simp only [provisionerFieldNames, List.mem_cons, List.not_mem_nil] at hnot
      push_neg at hnot
      obtain ⟨n1, n2, n3, n4, n5, -⟩ := hnot
      refine ⟨"field " ++ k ++ " not found in type cmdprov.Provisioner", ?_⟩
      simp only [decodeProvisionerDoc, if_neg n1, if_neg n2, if_neg n3, if_neg n4, if_neg n5]
    · obtain ⟨k, v⟩ := hd
      simp only [decodeProvisionerDoc]
      repeat' split
      all_goals first
        | exact ⟨_, rfl⟩
        | exact ih _ kv hmem2 hnot

/-- A successful strict decode certifies that every key of the document
is in the struct's field set. -/
theorem decodeProvisionerDoc_ok_keys :
    ∀ (doc : List (String × DVal)) (p0 q : Provisioner),
      decodeProvisionerDoc doc p0 = .ok q →
      ∀ kv ∈ doc, kv.1 ∈ provisionerFieldNames := by
  intro doc
  induction doc with
  | nil =>
    intro p0 q h kv hkv
    simp at hkv
  | cons hd rest ih =>
    obtain ⟨k, v⟩ := hd
    intro p0 q h kv hkv
    rcases List.mem_cons.mp hkv with heq | hmem
    · subst heq
      by_contra hnot
      obtain ⟨e, he⟩ :=
        decodeProvisionerDoc_unknown_key ((k, v) :: rest) p0 (k, v) (List.mem_cons_self _ _) hnot
      rw [he] at h
      cases h
    · simp only [decodeProvisionerDoc] at h
      repeat' split at h
      any_goals cases h
      all_goals exact ih _ _ h kv hmem

/-- A successful strict decode either leaves the uri at its initial value
or the document contains a `uri` key. -/
theorem decodeProvisionerDoc_uri_source :
    ∀ (doc : List (String × DVal)) (p0 q : Provisioner),
      decodeProvisionerDoc doc p0 = .ok q →
      q.provisionerUri = p0.provisionerUri ∨ ∃ kv ∈ doc, kv.1 = "uri" := by
  intro doc
  induction doc with
  | nil =>
    intro p0 q h
    simp only [decodeProvisionerDoc] at h
    injection h with h2
    subst h2
    exact Or.inl rfl
  | cons hd rest ih =>
    obtain ⟨k, v⟩ := hd
    intro p0 q h
    by_cases hk : k = "uri"
    · exact Or.inr ⟨(k, v), List.mem_cons_self _ _, hk⟩
    · simp only [decodeProvisionerDoc, if_neg hk] at h
      repeat' split at h
      any_goals cases h
      all_goals
        (rcases ih _ _ h with hl | ⟨kv2, hkv2, hk2⟩
         · exact Or.inl hl
         · exact Or.inr ⟨kv2, List.mem_cons_of_mem _ hkv2, hk2⟩)

/-- A successful strict decode either leaves the type at its initial
value or the document contains a `type` key. -/
theorem decodeProvisionerDoc_type_source :
    ∀ (doc : List (String × DVal)) (p0 q : Provisioner),
      decodeProvisionerDoc doc p0 = .ok q →
      q.resType = p0.resType ∨ ∃ kv ∈ doc, kv.1 = "type" := by
  intro doc
  induction doc with
  | nil =>
    intro p0 q h
    simp only [decodeProvisionerDoc] at h
    injection h with h2
    subst h2
    exact Or.inl rfl
  | cons hd rest ih =>
    obtain ⟨k, v⟩ := hd
    intro p0 q h
    by_cases hk : k = "type"
    · exact Or.inr ⟨(k, v), List.mem_cons_self _ _, hk⟩
    · simp only [decodeProvisionerDoc] at h
      repeat' split at h
      any_goals cases h
      all_goals
        (rcases ih _ _ h with hl | ⟨kv2, hkv2, hk2⟩
         · exact Or.inl hl
         · exact Or.inr ⟨kv2, List.mem_cons_of_mem _ hkv2, hk2⟩)

/-- C7: descriptor parsing fails, at load time, on every document with an
unknown field, a missing `uri` field, a missing `type` field, or a uri
carrying user-info, a query parameter, or an explicit port; and it
succeeds only on documents with none of these defects. -/
theorem Parse_strict (env : OsEnv) (doc : List (String × DVal)) :
    ((∃ kv ∈ doc, kv.1 ∉ provisionerFieldNames) → ∃ e, Parse env doc = .error e) ∧
    ((∀ kv ∈ doc, kv.1 ≠ "uri") → ∃ e, Parse env doc = .error e) ∧
    ((∀ kv ∈ doc, kv.1 ≠ "type") → ∃ e, Parse env doc = .error e) ∧
    (∀ q parts, decodeProvisionerDoc doc emptyProvisioner = .ok q →
        env.parseURL q.provisionerUri = some parts →
        (parts.userinfo.isSome ∨ parts.queryParams ≠ [] ∨ parts.port ≠ "") →
        ∃ e, Parse env doc = .error e) ∧
    (∀ p, Parse env doc = .ok p →
        (∀ kv ∈ doc, kv.1 ∈ provisionerFieldNames) ∧
        (∃ kv ∈ doc, kv.1 = "uri") ∧ (∃ kv ∈ doc, kv.1 = "type") ∧
        ∃ parts, env.parseURL p.provisionerUri = some parts ∧
          parts.userinfo = none ∧ parts.queryParams = [] ∧ parts.port = "") := by
  refine ⟨?_, ?_, ?_, ?_, ?_⟩
  · rintro ⟨kv, hkv, hnot⟩
    obtain ⟨e, he⟩ := decodeProvisionerDoc_unknown_key doc emptyProvisioner kv hkv hnot
    refine ⟨e, ?_⟩
    unfold Parse
    rw [he]
  · intro hnone
    rcases hd : decodeProvisionerDoc doc emptyProvisioner with e | q
    · refine ⟨e, ?_⟩
      unfold Parse
      rw [hd]
    · have hq : q.provisionerUri = "" := by
        rcases decodeProvisionerDoc_uri_source doc emptyProvisioner q hd with hl | ⟨kv, hkv, hk⟩
        · exact hl
        · exact absurd hk (hnone kv hkv)
      refine ⟨"uri not set", ?_⟩
      unfold Parse
      rw [hd]
      simp only [if_pos hq]
  · intro hnone
    rcases hd : decodeProvisionerDoc doc emptyProvisioner with e | q
    · refine ⟨e, ?_⟩
      unfold Parse
      rw [hd]
    · have ht : q.resType = "" := by
        rcases decodeProvisionerDoc_type_source doc emptyProvisioner q hd with hl | ⟨kv, hkv, hk⟩
        · exact hl
        · exact absurd hk (hnone kv hkv)
      by_cases hu : q.provisionerUri = ""
      · refine ⟨"uri not set", ?_⟩
        unfold Parse
        rw [hd]
        simp only [if_pos hu]
      · refine ⟨"type not set", ?_⟩
        unfold Parse
        rw [hd]
        simp only [if_neg hu, if_pos ht]
  · intro q parts hd hp hbad
    by_cases hu : q.provisionerUri = ""
    · refine ⟨"uri not set", ?_⟩
      unfold Parse
      rw [hd]
      simp only [if_pos hu]
    · by_cases ht : q.resType = ""
      · refine ⟨"type not set", ?_⟩
        unfold Parse
        rw [hd]
        simp only [if_neg hu, if_pos ht]
      · rcases hbad with hui | hqp | hpo
        · refine ⟨"cmd provisioner uri cannot contain user info", ?_⟩
          unfold Parse
          rw [hd]
          simp only [if_neg hu, if_neg ht]
          rw [hp]
          simp only [if_pos hui]
        · by_cases hui : parts.userinfo.isSome
          · refine ⟨"cmd provisioner uri cannot contain user info", ?_⟩
            unfold Parse
            rw [hd]
            simp only [if_neg hu, if_neg ht]
            rw [hp]
            simp only [if_pos hui]
          · refine ⟨"cmd provisioner uri cannot contain query params", ?_⟩
            unfold Parse
            rw [hd]
            simp only [if_neg hu, if_neg ht]
            rw [hp]
            have hlen : parts.queryParams.length ≠ 0 := by
              simpa using fun h => hqp (List.length_eq_zero.mp h)
            simp only [if_neg hui, if_pos hlen]
        · by_cases hui : parts.userinfo.isSome
          · refine ⟨"cmd provisioner uri cannot contain user info", ?_⟩
            unfold Parse
            rw [hd]
            simp only [if_neg hu, if_neg ht]
            rw [hp]
            simp only [if_pos hui]
          · by_cases hqp : parts.queryParams.length ≠ 0
            · refine ⟨"cmd provisioner uri cannot contain query params", ?_⟩
              unfold Parse
              rw [hd]
              simp only [if_neg hu, if_neg ht]
              rw [hp]
              simp only [if_neg hui, if_pos hqp]
            · refine ⟨"cmd provisioner uri cannot contain a port", ?_⟩
              unfold Parse
              rw [hd]
              simp only [if_neg hu, if_neg ht]
              rw [hp]
              simp only [if_neg hui, if_neg hqp, if_pos hpo]
  · intro p h
    obtain ⟨hdec, hu, ht, parts, hp, h1, h2, h3⟩ := Parse_ok_inversion env doc p h
    refine ⟨decodeProvisionerDoc_ok_keys doc emptyProvisioner p hdec, ?_, ?_, parts, hp, h1, h2, h3⟩
    · rcases decodeProvisionerDoc_uri_source doc emptyProvisioner p hdec with hl | hr
      · exact absurd hl hu
      · exact hr
    · rcases decodeProvisionerDoc_type_source doc emptyProvisioner p hdec with hl | hr
      · exact absurd hl ht
      · exact hr

/-- A concrete URL-parsing environment for exercising `Parse`. -/
def parseEnvW : OsEnv :=
  { parseURL := fun u =>
      if u = "http://h:80/x" then some ⟨"h", "/x", none, [], "80"⟩
      else if u = "cmd://ok" then some ⟨"ok", "", none, [], ""⟩
      else none,
    lookPath := fun _ => .error "not found",
    userHomeDir := .ok "/home/u", getwd := .ok "/work" }

/-- Witness for C7: an unknown field, a missing uri, a missing type, and
a uri with an explicit port each make `Parse` fail concretely, and a
well-formed document parses with all conditions certified. -/
theorem Parse_strict_witness :
    (∃ e, Parse parseEnvW [("bogus", DVal.str "x")] = .error e) ∧
    (∃ e, Parse parseEnvW [("type", DVal.str "t")] = .error e) ∧
    (∃ e, Parse parseEnvW [("uri", DVal.str "cmd://ok")] = .error e) ∧
    (∃ e, Parse parseEnvW [("uri", DVal.str "http://h:80/x"), ("type", DVal.str "t")] = .error e) ∧
    ((∀ kv ∈ [("uri", DVal.str "cmd://ok"), ("type", DVal.str "t")],
        kv.1 ∈ provisionerFieldNames) ∧
      (∃ kv ∈ [("uri", DVal.str "cmd://ok"), ("type", DVal.str "t")], kv.1 = "uri") ∧
      (∃ kv ∈ [("uri", DVal.str "cmd://ok"), ("type", DVal.str "t")], kv.1 = "type") ∧
      ∃ parts, parseEnvW.parseURL
          ({ provisionerUri := "cmd://ok", resType := "t", resClass := none, resId := none,
             args := [] : Provisioner }).provisionerUri = some parts ∧
        parts.userinfo = none ∧ parts.queryParams = [] ∧ parts.port = "") := by
  refine ⟨?_, ?_, ?_, ?_, ?_⟩
  · exact (Parse_strict parseEnvW _).1 ⟨("bogus", DVal.str "x"), List.mem_cons_self _ _, by decide⟩
  · exact (Parse_strict parseEnvW _).2.1 (by decide)
  · exact (Parse_strict parseEnvW _).2.2.1 (by decide)
  · exact (Parse_strict parseEnvW _).2.2.2.1
      { provisionerUri := "http://h:80/x", resType := "t", resClass := none, resId := none,
        args := [] }
      ⟨"h", "/x", none, [], "80"⟩ rfl rfl (Or.inr (Or.inr (by decide)))
  · exact (Parse_strict parseEnvW _).2.2.2.2
      { provisionerUri := "cmd://ok", resType := "t", resClass := none, resId := none, args := [] }
      rfl

/-! ## C3 — strict Provision Output decoding -/

/-- A field outside the whitelist is always detected by the strict
decoder's unknown-field scan. -/
theorem findUnknownField_of_mem :
    ∀ (kvs : List (String × Val)) (kv : String × Val), kv ∈ kvs →
      kv.1 ∉ provisionOutputFields → ∃ k, findUnknownField kvs = some k := by
  intro kvs
  induction kvs with
  | nil =>
    intro kv hmem hnot
    simp at hmem
  | cons hd rest ih =>
    intro kv hmem hnot
    rcases List.mem_cons.mp hmem with heq | hmem2
    · subst heq
      rw [findUnknownField, if_neg hnot]
      exact ⟨kv.1, rfl⟩
    · by_cases hh : hd.1 ∈ provisionOutputFields
      · rw [findUnknownField, if_pos hh]
        exact ih kv hmem2 hnot
      · rw [findUnknownField, if_neg hh]
        exact ⟨hd.1, rfl⟩

/-- C3: when the resolved subprocess runs and prints a JSON object that
contains at least one field outside the whitelisted Provision Output
schema, `Provision` returns the decode error — a constructor distinct
from the subprocess-exited-non-zero error — and never a decoded output,
even if all recognised fields are present and valid. -/
theorem Provision_strict_output_decode (env : ProvEnv) (p : Provisioner) (input : Val)
    (bin : String) (args : List String) (kvs : List (String × Val))
    (hbin : decodeBinary env.os p.provisionerUri = some (.ok bin))
    (hargs : provisionArgs (renderTemplate env.dataLookup) p.args = .ok args)
    (hrun : env.run bin args input = .ok (.map kvs))
    (hunknown : ∃ kv ∈ kvs, kv.1 ∉ provisionOutputFields) :
    ∃ e, ProvisionRun env p input = some (.error (.decodeFailed e), true) ∧
      (∀ e2, ProvisionError.decodeFailed e ≠ .subprocessFailed e2) ∧
      ∀ o sp, ProvisionRun env p input ≠ some (.ok o, sp) := by
  obtain ⟨kv, hmem, hnot⟩ := hunknown
  obtain ⟨k, hk⟩ := findUnknownField_of_mem kvs kv hmem hnot
  have heq : ProvisionRun env p input =
      some (.error (.decodeFailed ("failed to decode output from cmd provisioner: " ++
        ("json: unknown field " ++ k))), true) := by
    unfold ProvisionRun
    rw [hbin]
    simp only []
    rw [hargs]
    simp only [provisionIPC, hrun, decodeProvisionOutput, hk]
  refine ⟨_, heq, ?_, ?_⟩
  · intro e2 hcon
    simp at hcon
  · intro o sp hcon
    rw [heq] at hcon
    simp at hcon

/-- Witness for C3: a subprocess whose JSON output carries all five
recognised fields plus one extra field makes `Provision` fail with the
decode error. -/
theorem Provision_strict_output_decode_witness :
    ∃ e, ProvisionRun
        { os := { parseURL := fun u => if u = "x://foo" then some ⟨"foo", "", none, [], ""⟩ else none,
                  lookPath := fun n => if n = "foo" then .ok "/bin/foo" else .error "not found",
                  userHomeDir := .ok "/home/u", getwd := .ok "/work" },
          dataLookup := fun _ => none,
          run := fun _ _ _ => .ok (.map [("state", .null), ("values", .null), ("secrets", .null),
            ("shared", .null), ("manifests", .null), ("extra", .null)]) }
        { provisionerUri := "x://foo", resType := "t", resClass := none, resId := none, args := [] }
        .null = some (.error (.decodeFailed e), true) ∧
      (∀ e2, ProvisionError.decodeFailed e ≠ .subprocessFailed e2) ∧
      ∀ o sp, ProvisionRun
        { os := { parseURL := fun u => if u = "x://foo" then some ⟨"foo", "", none, [], ""⟩ else none,
                  lookPath := fun n => if n = "foo" then .ok "/bin/foo" else .error "not found",
                  userHomeDir := .ok "/home/u", getwd := .ok "/work" },
          dataLookup := fun _ => none,
          run := fun _ _ _ => .ok (.map [("state", .null), ("values", .null), ("secrets", .null),
            ("shared", .null), ("manifests", .null), ("extra", .null)]) }
        { provisionerUri := "x://foo", resType := "t", resClass := none, resId := none, args := [] }
        .null ≠ some (.ok o, sp) :=
  Provision_strict_output_decode _ _ .null "/bin/foo" []
    [("state", .null), ("values", .null), ("secrets", .null),
      ("shared", .null), ("manifests", .null), ("extra", .null)]
    rfl rfl rfl
    ⟨("extra", .null),
      List.mem_cons_of_mem _ (List.mem_cons_of_mem _ (List.mem_cons_of_mem _
        (List.mem_cons_of_mem _ (List.mem_cons_of_mem _ (List.mem_cons_self _ _))))),
      by decide⟩

/-! ## C9 — dot-path override properties -/

theorem lookupFirst_filter_ne (m : List (String × Val)) (k : String) :
    lookupFirst (m.filter (fun kv => kv.1 != k)) k = none := by
  induction m with
  | nil => rfl
  | cons hd rest ih =>
    by_cases h : hd.1 = k
    · rw [List.filter_cons_of_neg]
      · exact ih
      · simp [h]
    · rw [List.filter_cons_of_pos]
      · simp only [lookupFirst, if_neg h]
        exact ih
      · simp [h]

theorem lookupFirst_setKey (m : List (String × Val)) (k : String) (v : Val) :
    lookupFirst (setKey m k v) k = some v := by
  induction m with
  | nil => simp [setKey, lookupFirst]
  | cons hd rest ih =>
    by_cases h : hd.1 = k
    · simp [setKey, h, lookupFirst]
    · simp only [setKey, if_neg h, lookupFirst, if_neg h]
      exact ih

/-- Deleting a dot-path really removes it: after a successful delete-mode
override, reading the path yields nothing. -/
theorem overridePathInMap_delete_getPath :
    ∀ (path : List String) (m m2 : List (String × Val)) (v : Val),
      overridePathInMap m path true v = .ok m2 → getPath m2 path = none := by
  intro path
  induction path with
  | nil =>
    intro m m2 v h
    simp [overridePathInMap] at h
  | cons k tail ih =>
    intro m m2 v h
    cases tail with
    | nil =>
      simp only [overridePathInMap, if_pos rfl] at h
      injection h with h2
      subst h2
      simp only [getPath]
      exact lookupFirst_filter_ne m k
    | cons k2 rest =>
      simp only [overridePathInMap] at h
      rcases hl : lookupFirst m k with _ | val
      · rw [hl] at h
        simp at h
        subst h
        simp [getPath, hl]
      · rw [hl] at h
        cases val with
        | map sub =>
          have h2 : Except.map (fun sub2 => setKey m k (Val.map sub2))
              (overridePathInMap sub (k2 :: rest) true v) = .ok m2 := h
          rcases ho : overridePathInMap sub (k2 :: rest) true v with e | sub2
          · rw [ho] at h2
            simp [Except.map] at h2
          · rw [ho] at h2
            simp only [Except.map] at h2
            injection h2 with h3
            subst h3
            simp only [getPath, lookupFirst_setKey]
            exact ih sub sub2 v ho
        | null =>
          have h2 : Except.ok m = Except.ok m2 := h
          injection h2 with h3
          subst h3
          simp [getPath, hl]
        | bool b =>
          have h2 : Except.ok m = Except.ok m2 := h
          injection h2 with h3
          subst h3
          simp [getPath, hl]
        | int n =>
          have h2 : Except.ok m = Except.ok m2 := h
          injection h2 with h3
          subst h3
          simp [getPath, hl]
        | str s =>
          have h2 : Except.ok m = Except.ok m2 := h
          injection h2 with h3
          subst h3
          simp [getPath, hl]
        | list xs =>
          have h2 : Except.ok m = Except.ok m2 := h
          injection h2 with h3
          subst h3
          simp [getPath, hl]

/-- Setting a dot-path really stores the value: after a successful
set-mode override, reading the path yields exactly the written value. -/
theorem overridePathInMap_set_getPath :
    ∀ (path : List String) (m m2 : List (String × Val)) (v : Val),
      overridePathInMap m path false v = .ok m2 → getPath m2 path = some v := by
  intro path
  induction path with
  | nil =>
    intro m m2 v h
    simp [overridePathInMap] at h
  | cons k tail ih =>
    intro m m2 v h
    cases tail with
    | nil =>
      simp only [overridePathInMap] at h
      simp at h
      subst h
      simp only [getPath]
      exact lookupFirst_setKey m k v
    | cons k2 rest =>
      simp only [overridePathInMap] at h
      rcases hl : lookupFirst m k with _ | val
      · rw [hl] at h
        have h2 : Except.map (fun sub2 => setKey m k (Val.map sub2))
            (overridePathInMap [] (k2 :: rest) false v) = .ok m2 := h
        rcases ho : overridePathInMap [] (k2 :: rest) false v with e | sub2
        · rw [ho] at h2
          simp [Except.map] at h2
        · rw [ho] at h2
          simp only [Except.map] at h2
          injection h2 with h3
          subst h3
          simp only [getPath, lookupFirst_setKey]
          exact ih [] sub2 v ho
      · rw [hl] at h
        cases val with
        | map sub =>
          have h2 : Except.map (fun sub2 => setKey m k (Val.map sub2))
              (overridePathInMap sub (k2 :: rest) false v) = .ok m2 := h
          rcases ho : overridePathInMap sub (k2 :: rest) false v with e | sub2
          · rw [ho] at h2
            simp [Except.map] at h2
          · rw [ho] at h2
            simp only [Except.map] at h2
            injection h2 with h3
            subst h3
            simp only [getPath, lookupFirst_setKey]
            exact ih sub sub2 v ho
        | null =>
          have h2 : Except.error ("cannot set through non-map value at " ++ k) =
            Except.ok m2 := h
          simp at h2
        | bool b =>
          have h2 : Except.error ("cannot set through non-map value at " ++ k) =
            Except.ok m2 := h
          simp at h2
        | int n =>
          have h2 : Except.error ("cannot set through non-map value at " ++ k) =
            Except.ok m2 := h
          simp at h2
        | str s =>
          have h2 : Except.error ("cannot set through non-map value at " ++ k) =
            Except.ok m2 := h
          simp at h2
        | list xs =>
          have h2 : Except.error ("cannot set through non-map value at " ++ k) =
            Except.ok m2 := h
          simp at h2

/-- C9: an override entry whose value part after the `=` separator is
empty invokes the delete-mode path override (nil value), and the dot-path
is absent from the resulting document; an entry with a non-empty value
part parses the value and invokes the set-mode override, and the dot-path
then holds exactly the parsed value; an entry with no `=` separator is an
error. -/
theorem overrideProperty_delete_set_error (doc : List (String × Val)) (entry p v : String) :
    ((splitN2 entry = [p, ""] → ∀ m2,
        parseAndApplyOverrideProperty entry doc = .ok m2 →
        overridePathInMap doc (parseDotPathParts p) true Val.null = .ok m2 ∧
          getPath m2 (parseDotPathParts p) = none)) ∧
    (splitN2 entry = [p, v] → v ≠ "" → ∀ m2,
        parseAndApplyOverrideProperty entry doc = .ok m2 →
        ∃ value, yamlUnmarshalValue v = .ok value ∧
          overridePathInMap doc (parseDotPathParts p) false value = .ok m2 ∧
          getPath m2 (parseDotPathParts p) = some value) ∧
    (splitN2 entry = [entry] → ∃ e, parseAndApplyOverrideProperty entry doc = .error e) := by
  refine ⟨?_, ?_, ?_⟩
  · intro hsplit m2 hok
    simp only [parseAndApplyOverrideProperty, hsplit] at hok
    rcases ho : overridePathInMap doc (parseDotPathParts p) true Val.null with e | after
    · rw [ho] at hok
      simp at hok
    · rw [ho] at hok
      have hok3 : Except.ok after = Except.ok m2 := hok
      injection hok3 with h3
      subst h3
      exact ⟨rfl, overridePathInMap_delete_getPath _ doc after Val.null ho⟩
  · intro hsplit hv m2 hok
    simp only [parseAndApplyOverrideProperty, hsplit, if_neg hv] at hok
    rcases hy : yamlUnmarshalValue v with e | value
    · rw [hy] at hok
      simp at hok
    · rw [hy] at hok
      have hok2 : (match overridePathInMap doc (parseDotPathParts p) false value with
          | .error e => Except.error ("--override-property could not be applied: " ++ e)
          | .ok after => Except.ok after) = Except.ok m2 := hok
      rcases ho : overridePathInMap doc (parseDotPathParts p) false value with e | after
      · rw [ho] at hok2
        simp at hok2
      · rw [ho] at hok2
        have hok3 : Except.ok after = Except.ok m2 := hok2
        injection hok3 with h3
        subst h3
        exact ⟨value, rfl, ho, overridePathInMap_set_getPath _ doc after value ho⟩
  · intro hsplit
    refine ⟨"--override-property is invalid, expected a =-separated path and value", ?_⟩
    simp only [parseAndApplyOverrideProperty, hsplit]

/-- Witness for C9: `foo.bar=` deletes `foo.bar`, `foo.bar=5` sets it to
the parsed integer 5, and `nope` (no separator) errors. -/
theorem overrideProperty_delete_set_error_witness :
    (overridePathInMap [("foo", Val.map [("bar", Val.str "x")])] (parseDotPathParts "foo.bar")
        true Val.null = .ok [("foo", Val.map [])] ∧
      getPath [("foo", Val.map [])] (parseDotPathParts "foo.bar") = none) ∧
    (∃ value, yamlUnmarshalValue "5" = .ok value ∧
      overridePathInMap [("foo", Val.map [("bar", Val.str "x")])] (parseDotPathParts "foo.bar")
        false value = .ok [("foo", Val.map [("bar", Val.int 5)])] ∧
      getPath [("foo", Val.map [("bar", Val.int 5)])] (parseDotPathParts "foo.bar") = some value) ∧
    (∃ e, parseAndApplyOverrideProperty "nope" [("foo", Val.map [("bar", Val.str "x")])] =
      .error e) := by
  refine ⟨?_, ?_, ?_⟩
  · exact (overrideProperty_delete_set_error [("foo", Val.map [("bar", Val.str "x")])]
      "foo.bar=" "foo.bar" "").1 rfl [("foo", Val.map [])] rfl
  · exact (overrideProperty_delete_set_error [("foo", Val.map [("bar", Val.str "x")])]
      "foo.bar=5" "foo.bar" "5").2.1 rfl (by decide) [("foo", Val.map [("bar", Val.int 5)])] rfl
  · exact (overrideProperty_delete_set_error [("foo", Val.map [("bar", Val.str "x")])]
      "nope" "unused" "unused").2.2 rfl

/-! ## C1 / C4 / C8 — the generate pipeline -/

theorem scanAll_ok_clean (isRef : String → Bool) :
    ∀ ms ms2, scanAll isRef ms = .ok ms2 →
      ms2 = ms ∧ ∀ m ∈ ms, findFirstUnresolvedSecretRef isRef "" m = none := by
  intro ms
  induction ms with
  | nil =>
    intro ms2 h
    have h2 : Except.ok ([] : List Val) = Except.ok ms2 := h
    injection h2 with h3
    subst h3
    exact ⟨rfl, by simp⟩
  | cons m rest ih =>
    intro ms2 h
    simp only [scanAll] at h
    rcases hf : findFirstUnresolvedSecretRef isRef "" m with _ | p
    · rw [hf] at h
      have h2 : (match scanAll isRef rest with
          | .error e => Except.error e
          | .ok tail => Except.ok (m :: tail)) = Except.ok ms2 := h
      rcases hs : scanAll isRef rest with e | tail
      · rw [hs] at h2
        exact absurd h2 (by simp)
      · rw [hs] at h2
        have h3 : Except.ok (m :: tail) = Except.ok ms2 := h2
        injection h3 with h4
        subst h4
        obtain ⟨hteq, hclean⟩ := ih tail hs
        subst hteq
        refine ⟨rfl, ?_⟩
        intro x hx
        rcases List.mem_cons.mp hx with hxe | hxm
        · subst hxe
          exact hf
        · exact hclean x hxm
    · rw [hf] at h
      have h2 : Except.error ("unresolved secret ref in manifest: " ++ p) = Except.ok ms2 := h
      exact absurd h2 (by simp)

theorem scanAll_err_of_dirty (isRef : String → Bool) :
    ∀ ms m, m ∈ ms → findFirstUnresolvedSecretRef isRef "" m ≠ none →
      ∃ e, scanAll isRef ms = .error e := by
  intro ms
  induction ms with
  | nil =>
    intro m hm hdirty
    simp at hm
  | cons hd rest ih =>
    intro m hm hdirty
    rcases List.mem_cons.mp hm with heq | hmem
    · subst heq
      rcases hf : findFirstUnresolvedSecretRef isRef "" m with _ | p
      · exact absurd hf hdirty
      · exact ⟨"unresolved secret ref in manifest: " ++ p, by simp only [scanAll, hf]⟩
    · rcases hf : findFirstUnresolvedSecretRef isRef "" hd with _ | p
      · obtain ⟨e, he⟩ := ih m hmem hdirty
        exact ⟨e, by simp only [scanAll, hf, he]⟩
      · exact ⟨"unresolved secret ref in manifest: " ++ p, by simp only [scanAll, hf]⟩

theorem emitWorkloads_ok_clean (env : GenEnv) (s : GenState) :
    ∀ wl ms, emitWorkloads env s wl = .ok ms →
      ∀ m ∈ ms, findFirstUnresolvedSecretRef env.isSecretRef "" m = none := by
  intro wl
  induction wl with
  | nil =>
    intro ms h m hm
    have h2 : Except.ok ([] : List Val) = Except.ok ms := h
    injection h2 with h3
    subst h3
    simp at hm
  | cons w rest ih =>
    intro ms h m hm
    simp only [emitWorkloads] at h
    rcases hc : env.convert s w.1 with e | cms
    · rw [hc] at h
      have h2 : Except.error ("workload: " ++ w.1 ++ ": failed to convert: " ++ e) =
        Except.ok ms := h
      exact absurd h2 (by simp)
    · rw [hc] at h
      have h2 : (match scanAll env.isSecretRef cms with
          | .error e => Except.error e
          | .ok ms2 =>
            match emitWorkloads env s rest with
            | .error e => Except.error e
            | .ok tail => Except.ok (ms2 ++ tail)) = Except.ok ms := h
      rcases hs : scanAll env.isSecretRef cms with e | cms2
      · rw [hs] at h2
        exact absurd h2 (by simp)
      · rw [hs] at h2
        rcases hr : emitWorkloads env s rest with e | tail
        · rw [hr] at h2
          exact absurd h2 (by simp)
        · rw [hr] at h2
          have h3 : Except.ok (cms2 ++ tail) = Except.ok ms := h2
          injection h3 with h4
          subst h4
          rcases List.mem_append.mp hm with hml | hmr
          · obtain ⟨heq, hclean⟩ := scanAll_ok_clean env.isSecretRef cms cms2 hs
            subst heq
            exact hclean m hml
          · exact ih tail hr m hmr

theorem emitWorkloads_err_of_dirty (env : GenEnv) (s : GenState) :
    ∀ wl m, m ∈ convertedManifests env s wl →
      findFirstUnresolvedSecretRef env.isSecretRef "" m ≠ none →
      ∃ e, emitWorkloads env s wl = .error e := by
  intro wl
  induction wl with
  | nil =>
    intro m hm hdirty
    simp [convertedManifests] at hm
  | cons w rest ih =>
    intro m hm hdirty
    rcases hc : env.convert s w.1 with e | cms
    · exact ⟨"workload: " ++ w.1 ++ ": failed to convert: " ++ e,
        by simp only [emitWorkloads, hc]⟩
    · simp only [convertedManifests] at hm
      rw [hc] at hm
      have hm2 : m ∈ cms ++ convertedManifests env s rest := hm
      rcases List.mem_append.mp hm2 with hml | hmr
      · obtain ⟨e, he⟩ := scanAll_err_of_dirty env.isSecretRef cms m hml hdirty
        exact ⟨e, by simp only [emitWorkloads, hc, he]⟩
      · obtain ⟨e, he⟩ := ih m hmr hdirty
        rcases hs : scanAll env.isSecretRef cms with e2 | cms2
        · exact ⟨e2, by simp only [emitWorkloads, hc, hs]⟩
        · exact ⟨e, by simp only [emitWorkloads, hc, hs, he]⟩

theorem emitManifests_ok_clean (env : GenEnv) (s : GenState) (ms : List Val)
    (h : emitManifests env s = .ok ms) :
    ∀ m ∈ ms, findFirstUnresolvedSecretRef env.isSecretRef "" m = none := by
  intro m hm
  unfold emitManifests at h
  rcases hs : scanAll env.isSecretRef s.extrasManifests with e | ms1
  · rw [hs] at h
    exact absurd (show Except.error e = Except.ok ms from h) (by simp)
  · rw [hs] at h
    have h2 : (match emitWorkloads env s s.workloads with
        | .error e => Except.error e
        | .ok ms2 => Except.ok (ms1 ++ ms2)) = Except.ok ms := h
    rcases hw : emitWorkloads env s s.workloads with e | ms2
    · rw [hw] at h2
      exact absurd h2 (by simp)
    · rw [hw] at h2
      have h3 : Except.ok (ms1 ++ ms2) = Except.ok ms := h2
      injection h3 with h4
      subst h4
      rcases List.mem_append.mp hm with hml | hmr
      · obtain ⟨heq, hclean⟩ := scanAll_ok_clean env.isSecretRef s.extrasManifests ms1 hs
        subst heq
        exact hclean m hml
      · exact emitWorkloads_ok_clean env s s.workloads ms2 hw m hmr

theorem emitManifests_err_of_dirty (env : GenEnv) (s : GenState) (m : Val)
    (hm : m ∈ emitCandidates env s)
    (hdirty : findFirstUnresolvedSecretRef env.isSecretRef "" m ≠ none) :
    ∃ e, emitManifests env s = .error e := by
  have hm2 : m ∈ s.extrasManifests ++ convertedManifests env s s.workloads := hm
  rcases List.mem_append.mp hm2 with hml | hmr
  · obtain ⟨e, he⟩ := scanAll_err_of_dirty env.isSecretRef s.extrasManifests m hml hdirty
    exact ⟨e, by simp only [emitManifests, he]⟩
  · rcases hs : scanAll env.isSecretRef s.extrasManifests with e | ms1
    · exact ⟨e, by simp only [emitManifests, hs]⟩
    · obtain ⟨e, he⟩ := emitWorkloads_err_of_dirty env s s.workloads m hmr hdirty
      exact ⟨e, by simp only [emitManifests, hs, he]⟩

/-- C1: no manifest containing an unresolved secret reference is ever
emitted by `generate` — whenever the pipeline records a write of the
assembled manifest stream, the run succeeded and every written manifest
passes the secret scanner clean; and the first unresolved secret
reference found anywhere among the emission candidates (state extras or
converted workload manifests) makes the emission stage return an error,
so no stream is written. -/
theorem generate_never_emits_unresolved_secret :
    (∀ (env : GenEnv) (init : GenState) (args : List String) (ms : List Val),
        GEvent.wroteOutput ms ∈ (generatePipeline env init args).2 →
        (generatePipeline env init args).1 = .ok ms ∧
          ∀ m ∈ ms, findFirstUnresolvedSecretRef env.isSecretRef "" m = none) ∧
    (∀ (env : GenEnv) (s : GenState) (m : Val),
        m ∈ emitCandidates env s →
        findFirstUnresolvedSecretRef env.isSecretRef "" m ≠ none →
        ∃ e, emitManifests env s = .error e) := by
  constructor
  · intro env init args ms hmem
    rcases hmg : mergeWorkloads env init
        (List.insertionSort (fun a b => goStringLe a b = true) args) with e | s1
    · unfold generatePipeline at hmem
      simp [hmg] at hmem
    · cases hempty : s1.workloads.isEmpty with
      | true =>
        unfold generatePipeline at hmem
        simp [hmg, hempty] at hmem
      | false =>
        rcases hp : env.prime s1 with e | s2
        · unfold generatePipeline at hmem
          simp [hmg, hempty, hp] at hmem
        · rcases hv : env.provisionAll s2 with e | s3
          · unfold generatePipeline at hmem
            simp [hmg, hempty, hp, hv] at hmem
          · rcases he : emitManifests env s3 with e | ms2
            · unfold generatePipeline at hmem
              simp [hmg, hempty, hp, hv, he] at hmem
            · unfold generatePipeline at hmem
              simp [hmg, hempty, hp, hv, he] at hmem
              subst hmem
              constructor
              · unfold generatePipeline
                simp [hmg, hempty, hp, hv, he]
              · exact emitManifests_ok_clean env s3 _ he
  · intro env s m hm hdirty
    exact emitManifests_err_of_dirty env s m hm hdirty

/-- A concrete pipeline environment: each file loads a workload named
after the file, priming and provisioning are identities, conversion emits
one manifest naming the workload, and the unresolved-secret token is the
scalar `"UNRESOLVED"`. -/
def pipeEnvW : GenEnv :=
  { loadWorkload := fun f => .ok (f, .null),
    prime := .ok,
    provisionAll := .ok,
    convert := fun _ n => .ok [.str n],
    isSecretRef := fun s => s = "UNRESOLVED" }

/-- Witness for C1: a clean run writes only scanner-clean manifests, and
an extras manifest holding the unresolved token makes emission fail. -/
theorem generate_never_emits_unresolved_secret_witness :
    ((generatePipeline pipeEnvW ⟨[("w", Val.null)], [Val.str "ok"]⟩ []).1 =
        .ok [Val.str "ok", Val.str "w"] ∧
      ∀ m ∈ [Val.str "ok", Val.str "w"],
        findFirstUnresolvedSecretRef pipeEnvW.isSecretRef "" m = none) ∧
    ∃ e, emitManifests pipeEnvW ⟨[], [Val.str "UNRESOLVED"]⟩ = .error e := by
  constructor
  · exact generate_never_emits_unresolved_secret.1 pipeEnvW ⟨[("w", Val.null)], [Val.str "ok"]⟩
      [] [Val.str "ok", Val.str "w"]
      (List.mem_cons_of_mem _ (List.mem_cons_of_mem _ (List.mem_cons_of_mem _
        (List.mem_cons_self _ _))))
  · exact generate_never_emits_unresolved_secret.2 pipeEnvW ⟨[], [Val.str "UNRESOLVED"]⟩
      (Val.str "UNRESOLVED") (List.mem_cons_self _ _) (by decide)

/-- C4 counterexample: `generate` run with zero input score files does
not fail when the loaded project state already holds a workload — the
run reaches priming (the `primed` event is recorded) and completes
successfully, so "zero workloads supplied implies failure before
priming" is false as stated. -/
theorem generate_zero_files_counterexample :
    (generatePipeline pipeEnvW ⟨[("w", Val.null)], []⟩ []).1 = .ok [Val.str "w"] ∧
      GEvent.primed ∈ (generatePipeline pipeEnvW ⟨[("w", Val.null)], []⟩ []).2 := by
  constructor
  · rfl
  · exact List.mem_cons_self _ _

/-- C4 (amended): when the merge stage leaves the project state with zero
workloads, `generate` fails with the empty-project error before any
priming or provisioning attempt (no pipeline event is recorded). -/
theorem generate_empty_merge_aborts_before_any_attempt (env : GenEnv) (init : GenState)
    (args : List String) (s1 : GenState)
    (hmerge : mergeWorkloads env init
      (List.insertionSort (fun a b => goStringLe a b = true) args) = .ok s1)
    (hempty : s1.workloads = []) :
    generatePipeline env init args = (.error "Project is empty, please add a score file", []) := by
  unfold generatePipeline
  simp [hmerge, hempty]

/-- Witness for C4's amended claim: an empty initial state and zero input
files abort with the empty-project error and an empty event trace. -/
theorem generate_empty_merge_aborts_before_any_attempt_witness :
    generatePipeline pipeEnvW ⟨[], []⟩ [] =
      (.error "Project is empty, please add a score file", []) :=
  generate_empty_merge_aborts_before_any_attempt pipeEnvW ⟨[], []⟩ [] ⟨[], []⟩ rfl rfl

/-- C8: the input score files are merged in lexicographically sorted path
order (`slices.Sort(args)`), so the whole `generate` run — in particular
the merged workload order — is invariant under any permutation of the
command-line argument order. -/
theorem generate_order_permutation_invariant (env : GenEnv) (init : GenState)
    (args1 args2 : List String) (hperm : args1.Perm args2) :
    generatePipeline env init args1 = generatePipeline env init args2 := by
  have hsort : List.insertionSort (fun a b => goStringLe a b = true) args1 =
      List.insertionSort (fun a b => goStringLe a b = true) args2 := by
    haveI : IsTotal String (fun a b => goStringLe a b = true) := ⟨goStringLe_total⟩
    haveI : IsTrans String (fun a b => goStringLe a b = true) := ⟨goStringLe_trans⟩
    haveI : IsAntisymm String (fun a b => goStringLe a b = true) := ⟨goStringLe_antisymm⟩
    exact List.eq_of_perm_of_sorted
      ((List.perm_insertionSort _ args1).trans
        (hperm.trans (List.perm_insertionSort _ args2).symm))
      (List.sorted_insertionSort _ args1)
      (List.sorted_insertionSort _ args2)
  unfold generatePipeline
  rw [hsort]

/-- Witness for C8: supplying `b.score.yaml` and `a.score.yaml` in
reverse order gives the identical run, and the merged order puts `a`'s
workload (and manifest) before `b`'s. -/
theorem generate_order_permutation_invariant_witness :
    generatePipeline pipeEnvW ⟨[], []⟩ ["b.score.yaml", "a.score.yaml"] =
      generatePipeline pipeEnvW ⟨[], []⟩ ["a.score.yaml", "b.score.yaml"] ∧
    (generatePipeline pipeEnvW ⟨[], []⟩ ["b.score.yaml", "a.score.yaml"]).1 =
      .ok [Val.str "a.score.yaml", Val.str "b.score.yaml"] := by
  constructor
  · exact generate_order_permutation_invariant pipeEnvW ⟨[], []⟩ _ _ (List.Perm.swap _ _ _)
  · rfl

end ScoreK8s

